import Mathlib

/-!
Verification of the account rotation pool and the streaming session engine
of the claude-telegram-bot repository.  The definitions below are shallow
embeddings of the TypeScript sources (`src/account-pool.ts`, the Copilot
session manager); timestamps and durations are modelled as integers
(milliseconds, as produced by `Date.now()`), and the effectful parts
(console logging, file existence checks, promise settlement) are modelled
by explicit state passing, a boolean `dirExists` oracle and an explicit
settlement latch.
-/

namespace CTBot

/-! ## Account pool data model (`src/account-pool.ts`) -/

/-- An account of the pool: `{ name, configDir, rateLimitedUntil }`. -/
structure Account where
  name : String
  configDir : String
  rateLimitedUntil : Option Int
deriving DecidableEq

/-- Default account used for out-of-range indexing (never reached when the
pool invariant `currentIndex < accounts.length` holds). -/
def dfltAccount : Account := { name := "", configDir := "", rateLimitedUntil := none }

/-- Pool state: ordered account list, current index and the configured
cooldown (`ACCOUNT_COOLDOWN_MS`). -/
structure AccountPool where
  accounts : List Account
  currentIndex : Nat
  cooldownMs : Int
deriving DecidableEq

/-- An account is eligible for rotation when `rateLimitedUntil` is null or
already elapsed (`candidate.rateLimitedUntil === null || candidate.rateLimitedUntil <= now`). -/
def isAvailable (now : Int) (a : Account) : Bool :=
  match a.rateLimitedUntil with
  | none => true
  | some t => decide (t ≤ now)

/-- First half of `markLimitedAndRotate`: `acct.rateLimitedUntil = Date.now() + cd`
applied to the current account (a no-op when the pool is empty / index invalid). -/
def markCurrentLimited (p : AccountPool) (now cd : Int) : List Account :=
  match p.accounts.get? p.currentIndex with
  | none => p.accounts
  | some a => p.accounts.set p.currentIndex { a with rateLimitedUntil := some (now + cd) }

/-- The rotation scan:
`for (let i = 1; i <= accounts.length; i++) { nextIndex = (startIndex + i) % accounts.length; ... }`.
`fuel` is the number of remaining iterations, `i` the current loop counter. -/
def scanLoop (accounts : List Account) (startIndex : Nat) (now : Int) : Nat → Nat → Option Nat
  | _, 0 => none
  | i, Nat.succ fuel =>
    let nextIndex := (startIndex + i) % accounts.length
    if isAvailable now (accounts.getD nextIndex dfltAccount) then some nextIndex
    else scanLoop accounts startIndex now (i + 1) fuel

/-- `AccountPool.markLimitedAndRotate(cooldownMs?)`.  The cooldown defaults to
the configured one; the current account is marked limited, then the scan looks
for the next available account.  Returns the new pool state and the boolean
result. -/
def markLimitedAndRotate (p : AccountPool) (now : Int) (cdOpt : Option Int) :
    AccountPool × Bool :=
  let cd := cdOpt.getD p.cooldownMs
  let accounts := markCurrentLimited p now cd
  match scanLoop accounts p.currentIndex now 1 accounts.length with
  | some idx => ({ p with accounts := accounts, currentIndex := idx }, true)
  | none => ({ p with accounts := accounts }, false)

/-- One line of `AccountPool.getStatus()`, for one account. -/
def statusLine (now : Int) (isCurrent : Bool) (a : Account) : String :=
  let marker := if isCurrent then ">" else " "
  match a.rateLimitedUntil with
  | some t =>
    if t ≠ 0 ∧ now < t then
      marker ++ " " ++ a.name ++ " [limited " ++ toString ((t - now + 999) / 1000) ++ "s]"
    else marker ++ " " ++ a.name ++ " [ok]"
  | none => marker ++ " " ++ a.name ++ " [ok]"

/-- `AccountPool.getStatus()`: the per-account lines joined with `", "`, or
the no-pool message for an empty pool.  The `t ≠ 0` conjunct models the JS
truthiness test `acct.rateLimitedUntil && acct.rateLimitedUntil > now`. -/
def getStatus (p : AccountPool) (now : Int) : String :=
  if p.accounts.length = 0 then "No pool configured"
  else
    String.intercalate ", "
      (p.accounts.enum.map (fun pr => statusLine now (pr.1 = p.currentIndex) pr.2))

/-! ### Helper lemmas on list indexing -/
theorem getD_of_get? {α : Type} (l : List α) (n : Nat) (a d : α)
    (h : l.get? n = some a) : l.getD n d = a := by
  rw [List.getD_eq_getElem?_getD, ← List.get?_eq_getElem?, h]
  rfl

theorem getD_set_self {α : Type} (l : List α) (n : Nat) (x d : α)
    (h : n < l.length) : (l.set n x).getD n d = x := by
  induction l generalizing n with
  | nil => simp at h
  | cons b t ih =>
    cases n with
    | zero => rfl
    | succ m =>
      simp only [List.length_cons] at h
      exact ih m (Nat.lt_of_succ_lt_succ h)

theorem getD_set_ne {α : Type} (l : List α) (n m : Nat) (x d : α)
    (h : n ≠ m) : (l.set n x).getD m d = l.getD m d := by
  induction l generalizing n m with
  | nil => rfl
  | cons b t ih =>
    cases n with
    | zero =>
      cases m with
      | zero => exact absurd rfl h
      | succ k => rfl
    | succ n' =>
      cases m with
      | zero => rfl
      | succ k => exact ih n' k (fun hc => h (by rw [hc]))

/-! ### Characterization of the rotation scan -/

theorem scanLoop_succ (acc : List Account) (st : Nat) (now : Int) (i fuel : Nat) :
    scanLoop acc st now i (fuel + 1) =
      if isAvailable now (acc.getD ((st + i) % acc.length) dfltAccount) = true
      then some ((st + i) % acc.length)
      else scanLoop acc st now (i + 1) fuel := rfl

theorem scanLoop_none_iff (acc : List Account) (st : Nat) (now : Int) :
    ∀ fuel i, scanLoop acc st now i fuel = none ↔
      ∀ j, j < fuel →
        isAvailable now (acc.getD ((st + i + j) % acc.length) dfltAccount) = false := by
  intro fuel
  induction fuel with
  | zero => intro i; simp [scanLoop]
  | succ fuel ih =>
    intro i
    rw [scanLoop_succ]
    by_cases hav : isAvailable now (acc.getD ((st + i) % acc.length) dfltAccount) = true
    · rw [if_pos hav]
      constructor
      · intro hcontra; exact absurd hcontra (by simp)
      · intro hall
        have h0 := hall 0 (Nat.succ_pos fuel)
        rw [Nat.add_zero, hav] at h0
        exact absurd h0 (by simp)
    · rw [if_neg hav, ih (i + 1)]
      have hav' : isAvailable now (acc.getD ((st + i) % acc.length) dfltAccount) = false :=
        Bool.eq_false_iff.mpr hav
      constructor
      · intro hrest j hj
        cases j with
        | zero => rw [Nat.add_zero]; exact hav'
        | succ j' =>
          have harith : st + i + (j' + 1) = st + (i + 1) + j' := by omega
          rw [harith]
          exact hrest j' (Nat.lt_of_succ_lt_succ hj)
      · intro hall j hj
        have harith : st + (i + 1) + j = st + i + (j + 1) := by omega
        rw [harith]
        exact hall (j + 1) (Nat.succ_lt_succ hj)

theorem scanLoop_some_spec (acc : List Account) (st : Nat) (now : Int) :
    ∀ fuel i idx, scanLoop acc st now i fuel = some idx →
      ∃ j, j < fuel ∧ idx = (st + i + j) % acc.length ∧
        isAvailable now (acc.getD idx dfltAccount) = true ∧
        ∀ j', j' < j →
          isAvailable now (acc.getD ((st + i + j') % acc.length) dfltAccount) = false := by
  intro fuel
  induction fuel with
  | zero => intro i idx hsome; simp [scanLoop] at hsome
  | succ fuel ih =>
    intro i idx hsome
    rw [scanLoop_succ] at hsome
    by_cases hav : isAvailable now (acc.getD ((st + i) % acc.length) dfltAccount) = true
    · rw [if_pos hav] at hsome
      have hidx : idx = (st + i) % acc.length := (Option.some_inj.mp hsome).symm
      refine ⟨0, Nat.succ_pos fuel, by rw [Nat.add_zero]; exact hidx, ?_, ?_⟩
      · rw [hidx]; exact hav
      · intro j' hj'; omega
    · rw [if_neg hav] at hsome
      have hav' : isAvailable now (acc.getD ((st + i) % acc.length) dfltAccount) = false :=
        Bool.eq_false_iff.mpr hav
      obtain ⟨j, hj, hidx, hgood, hmin⟩ := ih (i + 1) idx hsome
      refine ⟨j + 1, Nat.succ_lt_succ hj, ?_, hgood, ?_⟩
      · have harith : st + i + (j + 1) = st + (i + 1) + j := by omega
        rw [harith]; exact hidx
      · intro j' hj'
        cases j' with
        | zero => rw [Nat.add_zero]; exact hav'
        | succ j'' =>
          have harith : st + i + (j'' + 1) = st + (i + 1) + j'' := by omega
          rw [harith]
          exact hmin j'' (Nat.lt_of_succ_lt_succ hj')

/-- Claim C1: `markLimitedAndRotate(cooldown?)` first sets the current
account's `rateLimitedUntil` to `now + cooldown` (the configured default when
omitted) leaving every other account untouched, then scans the accounts
starting at `currentIndex+1`, wrapping circularly, for exactly N steps
(N = pool size); it returns true and advances `currentIndex` to the nearest
clockwise account whose `rateLimitedUntil` is null or elapsed, and returns
false leaving `currentIndex` unchanged when no visited account qualifies. -/
theorem markLimitedAndRotate_spec (p : AccountPool) (now : Int) (cdOpt : Option Int)
    (p' : AccountPool) (r : Bool)
    (h : p.currentIndex < p.accounts.length)
    (heq : markLimitedAndRotate p now cdOpt = (p', r)) :
    p'.accounts.length = p.accounts.length ∧
    (p'.accounts.getD p.currentIndex dfltAccount).rateLimitedUntil
      = some (now + cdOpt.getD p.cooldownMs) ∧
    (p'.accounts.getD p.currentIndex dfltAccount).name
      = (p.accounts.getD p.currentIndex dfltAccount).name ∧
    (∀ i, i ≠ p.currentIndex →
      p'.accounts.getD i dfltAccount = p.accounts.getD i dfltAccount) ∧
    (r = true ↔ ∃ k, 1 ≤ k ∧ k ≤ p.accounts.length ∧
      isAvailable now
        (p'.accounts.getD ((p.currentIndex + k) % p.accounts.length) dfltAccount) = true) ∧
    (r = true → ∃ k, 1 ≤ k ∧ k ≤ p.accounts.length ∧
      p'.currentIndex = (p.currentIndex + k) % p.accounts.length ∧
      isAvailable now (p'.accounts.getD p'.currentIndex dfltAccount) = true ∧
      ∀ j, 1 ≤ j → j < k →
        isAvailable now
          (p'.accounts.getD ((p.currentIndex + j) % p.accounts.length) dfltAccount) = false) ∧
    (r = false → p'.currentIndex = p.currentIndex) := by
  have hget : p.accounts.get? p.currentIndex = some (p.accounts.get ⟨p.currentIndex, h⟩) :=
    List.get?_eq_get h
  have hmarked : markCurrentLimited p now (cdOpt.getD p.cooldownMs)
      = p.accounts.set p.currentIndex { p.accounts.get ⟨p.currentIndex, h⟩ with rateLimitedUntil := some (now + cdOpt.getD p.cooldownMs) } := by
    rw [markCurrentLimited, hget]
  have hlen : (markCurrentLimited p now (cdOpt.getD p.cooldownMs)).length
      = p.accounts.length := by rw [hmarked, List.length_set]
  have hcur : (markCurrentLimited p now (cdOpt.getD p.cooldownMs)).getD p.currentIndex dfltAccount
      = { p.accounts.get ⟨p.currentIndex, h⟩ with rateLimitedUntil := some (now + cdOpt.getD p.cooldownMs) } := by
    rw [hmarked]; exact getD_set_self _ _ _ _ h
  have hother : ∀ i, i ≠ p.currentIndex →
      (markCurrentLimited p now (cdOpt.getD p.cooldownMs)).getD i dfltAccount
        = p.accounts.getD i dfltAccount := by
    intro i hi
    rw [hmarked]
    exact getD_set_ne _ _ _ _ _ (fun hc => hi hc.symm)
  have haD : p.accounts.getD p.currentIndex dfltAccount = p.accounts.get ⟨p.currentIndex, h⟩ :=
    getD_of_get? _ _ _ _ hget
  rw [markLimitedAndRotate] at heq
  cases hscan : scanLoop (markCurrentLimited p now (cdOpt.getD p.cooldownMs))
      p.currentIndex now 1 (markCurrentLimited p now (cdOpt.getD p.cooldownMs)).length with
  | none =>
    rw [hscan] at heq
    have hp' : p' = { p with accounts := markCurrentLimited p now (cdOpt.getD p.cooldownMs) } :=
      congrArg Prod.fst heq.symm
    have hr : r = false := congrArg Prod.snd heq.symm
    subst hp'; subst hr
    refine ⟨hlen, by rw [hcur], by rw [hcur, haD], hother, ?_, by simp, fun _ => rfl⟩
    constructor
    · intro hcontra; exact absurd hcontra (by simp)
    · rintro ⟨k, hk1, hkn, hav⟩
      have hnone := (scanLoop_none_iff _ _ _ _ 1).mp hscan (k - 1) (by rw [hlen]; omega)
      rw [hlen] at hnone
      have harith : p.currentIndex + 1 + (k - 1) = p.currentIndex + k := by omega
      rw [harith] at hnone
      simp only at hav
      rw [hnone] at hav
      exact absurd hav (by simp)
  | some idx =>
    rw [hscan] at heq
    have hp' : p' = { p with accounts := markCurrentLimited p now (cdOpt.getD p.cooldownMs), currentIndex := idx } :=
      congrArg Prod.fst heq.symm
    have hr : r = true := congrArg Prod.snd heq.symm
    subst hp'; subst hr
    obtain ⟨j, hj, hidx, hgood, hmin⟩ := scanLoop_some_spec _ _ _ _ 1 idx hscan
    rw [hlen] at hj
    simp only [hlen] at hidx hmin
    have hkform : p.currentIndex + 1 + j = p.currentIndex + (j + 1) := by omega
    rw [hkform] at hidx
    refine ⟨hlen, by rw [hcur], by rw [hcur, haD], hother, ?_, ?_, by simp⟩
    · constructor
      · intro _
        exact ⟨j + 1, by omega, by omega, by simp only; rw [← hidx]; exact hgood⟩
      · intro _; rfl
    · intro _
      refine ⟨j + 1, by omega, by omega, by simp only [hidx], ?_, ?_⟩
      · simp only; rw [hidx, ← hidx]; exact hgood
      · intro j' hj1 hjk
        have hm := hmin (j' - 1) (by omega)
        have harith : p.currentIndex + 1 + (j' - 1) = p.currentIndex + j' := by omega
        rw [harith] at hm
        simp only
        exact hm
example :
    markLimitedAndRotate
      { accounts :=
          [ { name := "A", configDir := "a", rateLimitedUntil := some 10000 },
            { name := "B", configDir := "b", rateLimitedUntil := none },
            { name := "C", configDir := "c", rateLimitedUntil := none } ],
        currentIndex := 0, cooldownMs := 300000 } 0 none =
    ({ accounts :=
          [ { name := "A", configDir := "a", rateLimitedUntil := some 300000 },
            { name := "B", configDir := "b", rateLimitedUntil := none },
            { name := "C", configDir := "c", rateLimitedUntil := none } ],
        currentIndex := 1, cooldownMs := 300000 }, true) := by decide

example :
    markLimitedAndRotate
      { accounts := [ { name := "A", configDir := "a", rateLimitedUntil := none } ],
        currentIndex := 0, cooldownMs := 300000 } 5 none =
    ({ accounts := [ { name := "A", configDir := "a", rateLimitedUntil := some 300005 } ],
        currentIndex := 0, cooldownMs := 300000 }, false) := by decide

example :
    getStatus
      { accounts :=
          [ { name := "A", configDir := "a", rateLimitedUntil := some 2500 },
            { name := "B", configDir := "b", rateLimitedUntil := none } ],
        currentIndex := 0, cooldownMs := 300000 } 1000 =
    "> A [limited 2s],   B [ok]" := by decide

/-- Concrete pool used as witness input: `[A(limited 10s), B(ok), C(ok)]`,
current = A (the example from the specification). -/
def poolW : AccountPool :=
  { accounts :=
      [ { name := "A", configDir := "a", rateLimitedUntil := some 10000 },
        { name := "B", configDir := "b", rateLimitedUntil := none },
        { name := "C", configDir := "c", rateLimitedUntil := none } ],
    currentIndex := 0, cooldownMs := 300000 }

/-- The pool obtained from `poolW` by `markLimitedAndRotate` at time 0. -/
def poolW2 : AccountPool :=
  { accounts :=
      [ { name := "A", configDir := "a", rateLimitedUntil := some 300000 },
        { name := "B", configDir := "b", rateLimitedUntil := none },
        { name := "C", configDir := "c", rateLimitedUntil := none } ],
    currentIndex := 1, cooldownMs := 300000 }

/-- Witness for claim C1: the rotation specification instantiated on the
concrete pool `poolW` at time 0 with the default cooldown. -/
theorem markLimitedAndRotate_spec_witness :
    (poolW.currentIndex < poolW.accounts.length ∧
     markLimitedAndRotate poolW 0 none = (poolW2, true)) ∧
    (poolW2.accounts.length = poolW.accounts.length ∧
    (poolW2.accounts.getD poolW.currentIndex dfltAccount).rateLimitedUntil
      = some (0 + (none : Option Int).getD poolW.cooldownMs) ∧
    (poolW2.accounts.getD poolW.currentIndex dfltAccount).name
      = (poolW.accounts.getD poolW.currentIndex dfltAccount).name ∧
    (∀ i, i ≠ poolW.currentIndex →
      poolW2.accounts.getD i dfltAccount = poolW.accounts.getD i dfltAccount) ∧
    (true = true ↔ ∃ k, 1 ≤ k ∧ k ≤ poolW.accounts.length ∧
      isAvailable 0
        (poolW2.accounts.getD ((poolW.currentIndex + k) % poolW.accounts.length)
          dfltAccount) = true) ∧
    (true = true → ∃ k, 1 ≤ k ∧ k ≤ poolW.accounts.length ∧
      poolW2.currentIndex = (poolW.currentIndex + k) % poolW.accounts.length ∧
      isAvailable 0 (poolW2.accounts.getD poolW2.currentIndex dfltAccount) = true ∧
      ∀ j, 1 ≤ j → j < k →
        isAvailable 0
          (poolW2.accounts.getD ((poolW.currentIndex + j) % poolW.accounts.length)
            dfltAccount) = false) ∧
    (true = false → poolW2.currentIndex = poolW.currentIndex)) :=
  ⟨⟨by decide, by decide⟩,
   markLimitedAndRotate_spec poolW 0 none poolW2 true (by decide) (by decide)⟩

/-! ### Status summary (`getStatus`) -/

theorem enumFrom_map_getD (f : Nat × Account → String) :
    ∀ (l : List Account) (st i : Nat), i < l.length →
      ((List.enumFrom st l).map f).getD i "" = f (st + i, l.getD i dfltAccount) := by
  intro l
  induction l with
  | nil => intro st i hi; simp at hi
  | cons a t ih =>
    intro st i hi
    cases i with
    | zero => simp [List.enumFrom]
    | succ i' =>
      have harith : st + (i' + 1) = (st + 1) + i' := by omega
      simp only [List.enumFrom, List.map_cons, List.getD_cons_succ, harith]
      exact ih (st + 1) i' (by simp only [List.length_cons] at hi; omega)

/-- Claim C10: for a non-empty pool, `getStatus()` yields one line per
account, joined with `", "`: the current account is marked with `>`, an
account whose `rateLimitedUntil` lies in the future shows the remaining
cooldown in whole seconds rounded up, any other account shows `[ok]`; an
empty pool yields the no-pool message.  `now` is a real clock value, hence
non-negative. -/
theorem getStatus_spec (p : AccountPool) (now : Int) (h0 : 0 ≤ now) :
    (p.accounts = [] → getStatus p now = "No pool configured") ∧
    (p.accounts ≠ [] →
      ∃ lines : List String,
        getStatus p now = String.intercalate ", " lines ∧
        lines.length = p.accounts.length ∧
        ∀ i, i < p.accounts.length →
          ((p.accounts.getD i dfltAccount).rateLimitedUntil = none →
            lines.getD i "" = (if i = p.currentIndex then ">" else " ") ++ " "
              ++ (p.accounts.getD i dfltAccount).name ++ " [ok]") ∧
          (∀ t, (p.accounts.getD i dfltAccount).rateLimitedUntil = some t →
            (now < t →
              lines.getD i "" = (if i = p.currentIndex then ">" else " ") ++ " "
                ++ (p.accounts.getD i dfltAccount).name ++ " [limited "
                ++ toString ((t - now + 999) / 1000) ++ "s]") ∧
            (t ≤ now →
              lines.getD i "" = (if i = p.currentIndex then ">" else " ") ++ " "
                ++ (p.accounts.getD i dfltAccount).name ++ " [ok]"))) := by
  constructor
  · intro hnil
    rw [getStatus, if_pos (by rw [hnil]; rfl)]
  · intro hne
    have hlen : p.accounts.length ≠ 0 := fun hc => hne (List.length_eq_zero.mp hc)
    refine ⟨p.accounts.enum.map
      (fun pr => statusLine now (decide (pr.1 = p.currentIndex)) pr.2), ?_, ?_, ?_⟩
    · rw [getStatus, if_neg hlen]
    · rw [List.length_map, List.enum_length]
    · intro i hi
      have hline : (p.accounts.enum.map
          (fun pr => statusLine now (decide (pr.1 = p.currentIndex)) pr.2)).getD i ""
          = statusLine now (decide (i = p.currentIndex)) (p.accounts.getD i dfltAccount) := by
        have := enumFrom_map_getD
          (fun pr => statusLine now (decide (pr.1 = p.currentIndex)) pr.2) p.accounts 0 i hi
        simpa [List.enum] using this
      constructor
      · intro hnone
        rw [hline, statusLine, hnone]
        by_cases hc : i = p.currentIndex
        · simp [hc]
        · simp [hc]
      · intro t ht
        constructor
        · intro hfut
          have htz : t ≠ 0 := by omega
          rw [hline, statusLine, ht]
          simp only [if_pos (And.intro htz hfut)]
          by_cases hc : i = p.currentIndex
          · simp [hc]
          · simp [hc]
        · intro hpast
          have hcond : ¬(t ≠ 0 ∧ now < t) := fun hcc => by omega
          rw [hline, statusLine, ht]
          simp only [if_neg hcond]
          by_cases hc : i = p.currentIndex
          · simp [hc]
          · simp [hc]

/-- Witness for claim C10: the status specification instantiated on the
concrete pool `poolW` at time 1000. -/
theorem getStatus_spec_witness :
    (0 : Int) ≤ 1000 ∧
    ((poolW.accounts = [] → getStatus poolW 1000 = "No pool configured") ∧
    (poolW.accounts ≠ [] →
      ∃ lines : List String,
        getStatus poolW 1000 = String.intercalate ", " lines ∧
        lines.length = poolW.accounts.length ∧
        ∀ i, i < poolW.accounts.length →
          ((poolW.accounts.getD i dfltAccount).rateLimitedUntil = none →
            lines.getD i "" = (if i = poolW.currentIndex then ">" else " ") ++ " "
              ++ (poolW.accounts.getD i dfltAccount).name ++ " [ok]") ∧
          (∀ t, (poolW.accounts.getD i dfltAccount).rateLimitedUntil = some t →
            (1000 < t →
              lines.getD i "" = (if i = poolW.currentIndex then ">" else " ") ++ " "
                ++ (poolW.accounts.getD i dfltAccount).name ++ " [limited "
                ++ toString ((t - 1000 + 999) / 1000) ++ "s]") ∧
            (t ≤ 1000 →
              lines.getD i "" = (if i = poolW.currentIndex then ">" else " ") ++ " "
                ++ (poolW.accounts.getD i dfltAccount).name ++ " [ok]")))) :=
  ⟨by decide, getStatus_spec poolW 1000 (by decide)⟩

/-! ## Account discovery and name sanitization

The JS string primitives (`split`, `trim`, `startsWith`, regex matching)
are modelled by structurally recursive functions over `List Char` so that
they evaluate by kernel reduction. -/

/-- The word characters `[a-zA-Z0-9_-]` of the CCS regexes. -/
def isWordChar (c : Char) : Bool := c.isAlpha ∨ c.isDigit ∨ c = '_' ∨ c = '-'

/-- Whitespace as matched by the JS `\s` class and `trim()` (ASCII fragment;
exotic Unicode whitespace is not modelled). -/
def isSpaceJS (c : Char) : Bool := c = ' ' ∨ c = '\t' ∨ c = '\r' ∨ c = '\n'

/-- `String.prototype.split` with a one-character separator. -/
def splitOnChar (sep : Char) : List Char → List (List Char)
  | [] => [[]]
  | c :: rest =>
    if c = sep then [] :: splitOnChar sep rest
    else
      match splitOnChar sep rest with
      | [] => [[c]]
      | h :: t => (c :: h) :: t

/-- `String.prototype.trim` (ASCII whitespace). -/
def trimChars (l : List Char) : List Char :=
  ((l.dropWhile isSpaceJS).reverse.dropWhile isSpaceJS).reverse

/-- `leadsWith p l`: `l` starts with the character sequence `p`. -/
def leadsWith : List Char → List Char → Bool
  | [], _ => true
  | _ :: _, [] => false
  | c :: cs, d :: ds => c = d && leadsWith cs ds

/-- `sanitizeName`: `name.replace(/[^a-zA-Z0-9_-]/g, "-").toLowerCase()`. -/
def sanitizeName (name : String) : String :=
  String.mk ((name.data.map (fun c => if isWordChar c then c else '-')).map Char.toLower)

/-- `loadFromEnv`: split `CLAUDE_ACCOUNTS` on commas, trim each piece, drop
empties; `none` when the variable is unset or empty (JS falsiness of `raw`). -/
def loadFromEnv (raw : Option String) : Option (List String) :=
  match raw with
  | none => none
  | some r =>
    if r = "" then none
    else some ((((splitOnChar ',' r.data).map trimChars).filter
      (fun s => s ≠ [])).map String.mk)

/-- Length of the leading whitespace run (`line.match(/^(\s*)/)[1].length`). -/
def lineIndent (line : List Char) : Nat := (line.takeWhile isSpaceJS).length

/-- `/^accounts\s*:/.test(line)`. -/
def isAccountsKey (line : List Char) : Bool :=
  leadsWith "accounts".data line &&
    decide (((line.drop 8).dropWhile isSpaceJS).take 1 = [':'])

/-- `/^\s/.test(line)`. -/
def startsWithSpace (line : List Char) : Bool :=
  match line with
  | [] => false
  | c :: _ => isSpaceJS c

/-- Mapping-layout entry (`indent === 2 && /^\s{2}[a-zA-Z0-9_-]+\s*:/`),
returning the captured name. -/
def mappingNameOf (line : List Char) : Option String :=
  if lineIndent line = 2 then
    let rest := line.drop 2
    let word := rest.takeWhile isWordChar
    let after := (rest.drop word.length).dropWhile isSpaceJS
    if word ≠ [] ∧ after.take 1 = [':'] then some (String.mk word) else none
  else none

/-- `replace(/^["']|["']$/g, "")`: strip one leading and one trailing quote. -/
def stripQuotes (s : List Char) : List Char :=
  let d1 := match s with
    | c :: rest => if c = '"' ∨ c = Char.ofNat 39 then rest else c :: rest
    | [] => []
  match d1.reverse with
  | c :: rest => if c = '"' ∨ c = Char.ofNat 39 then rest.reverse else d1
  | [] => d1

/-- List-layout inline entry `/^-\s+name\s*:\s*(.+)/` on the trimmed line,
returning everything after the colon when non-empty (the capture group
trims to the same string). -/
def inlineRestOf (trimmed : List Char) : Option (List Char) :=
  match trimmed with
  | '-' :: rest =>
    let ws := rest.takeWhile isSpaceJS
    if ws = [] then none
    else
      let r1 := rest.drop ws.length
      if r1.take 4 = ['n', 'a', 'm', 'e'] then
        let r2 := (r1.drop 4).dropWhile isSpaceJS
        match r2 with
        | ':' :: r3 => if r3 = [] then none else some r3
        | _ => none
      else none
  | _ => none

/-- List-layout plain entry `/^-\s+([a-zA-Z0-9_-]+)\s*$/` on the trimmed line. -/
def plainNameOf (trimmed : List Char) : Option String :=
  match trimmed with
  | '-' :: rest =>
    let ws := rest.takeWhile isSpaceJS
    if ws = [] then none
    else
      let r1 := rest.drop ws.length
      let word := r1.takeWhile isWordChar
      if word ≠ [] ∧ (r1.drop word.length).all isSpaceJS then some (String.mk word)
      else none
  | _ => none

/-- The line scan of `parseYamlAccountNames`: `inAccounts` is the section
flag; a non-blank, non-comment, unindented line inside the section ends the
scan (the `break`). -/
def parseYamlLines : List (List Char) → Bool → List String → List String
  | [], _, names => names
  | line :: rest, inAccounts, names =>
    let trimmed := trimChars line
    if isAccountsKey line then parseYamlLines rest true names
    else if ¬inAccounts then parseYamlLines rest inAccounts names
    else if trimmed ≠ [] ∧ ¬(leadsWith ['#'] trimmed = true) ∧
        ¬(startsWithSpace line = true) then names
    else if trimmed = [] ∨ leadsWith ['#'] trimmed then parseYamlLines rest inAccounts names
    else
      match mappingNameOf line with
      | some nm => parseYamlLines rest inAccounts (names ++ [nm])
      | none =>
        if leadsWith ['-'] trimmed then
          match inlineRestOf trimmed with
          | some raw =>
            let nm := stripQuotes (trimChars raw)
            if nm ≠ [] then parseYamlLines rest inAccounts (names ++ [String.mk nm])
            else parseYamlLines rest inAccounts names
          | none =>
            match plainNameOf trimmed with
            | some nm => parseYamlLines rest inAccounts (names ++ [nm])
            | none => parseYamlLines rest inAccounts names
        else parseYamlLines rest inAccounts names

/-- `parseYamlAccountNames`: scan the `accounts:` section of the YAML text;
`none` when no names were found. -/
def parseYamlAccountNames (content : String) : Option (List String) :=
  let names := parseYamlLines (splitOnChar '\n' content.data) false []
  if names = [] then none else some names

/-- `buildAccounts`: for each name derive the sanitized instance directory
`<ccsDir>/instances/<sanitized>` and admit the account only when that
directory exists (`dirExists` abstracts `existsSync`). -/
def buildAccounts (names : List String) (ccsDir : String)
    (dirExists : String → Bool) : List Account :=
  match names with
  | [] => []
  | n :: rest =>
    if dirExists (ccsDir ++ "/instances/" ++ sanitizeName n) then
      { name := n, configDir := ccsDir ++ "/instances/" ++ sanitizeName n,
        rateLimitedUntil := none } :: buildAccounts rest ccsDir dirExists
    else buildAccounts rest ccsDir dirExists

example : parseYamlAccountNames "accounts:\n  alpha:\n  beta:\nother:\n  gamma:"
    = some ["alpha", "beta"] := by decide

example : parseYamlAccountNames "accounts:\n  - name: My Acc\n  - plain-one"
    = some ["My Acc", "plain-one"] := by decide

example : loadFromEnv (some " a b , c! ") = some ["a b", "c!"] := by decide

example : sanitizeName "My Acc!" = "my-acc-" := by decide

theorem buildAccounts_configDir (names : List String) (ccsDir : String)
    (dirExists : String → Bool) :
    ∀ a ∈ buildAccounts names ccsDir dirExists,
      a.configDir = ccsDir ++ "/instances/" ++ sanitizeName a.name := by
  induction names with
  | nil => intro a ha; simp [buildAccounts] at ha
  | cons n rest ih =>
    intro a ha
    rw [buildAccounts] at ha
    by_cases hd : dirExists (ccsDir ++ "/instances/" ++ sanitizeName n) = true
    · rw [if_pos hd] at ha
      rcases List.mem_cons.mp ha with heq | hmem
      · rw [heq]
      · exact ih a hmem
    · rw [if_neg hd] at ha
      exact ih a ha

/-- Claim C8: an account name found via the explicit comma-separated list,
via the config file's mapping layout, and via the config file's list layout
is sanitized identically: the admitted accounts carry the same final
credential directory `<ccsDir>/instances/<sanitized-name>`. -/
theorem sanitizeRoundTrip (name envRaw contentMap contentList ccsDir : String)
    (dirExists : String → Bool)
    (h1 : name ∈ (loadFromEnv (some envRaw)).getD [])
    (h2 : name ∈ (parseYamlAccountNames contentMap).getD [])
    (h3 : name ∈ (parseYamlAccountNames contentList).getD []) :
    ∀ a1 ∈ buildAccounts ((loadFromEnv (some envRaw)).getD []) ccsDir dirExists,
    ∀ a2 ∈ buildAccounts ((parseYamlAccountNames contentMap).getD []) ccsDir dirExists,
    ∀ a3 ∈ buildAccounts ((parseYamlAccountNames contentList).getD []) ccsDir dirExists,
      a1.name = name → a2.name = name → a3.name = name →
      a1.configDir = a2.configDir ∧ a2.configDir = a3.configDir ∧
      a1.configDir = ccsDir ++ "/instances/" ++ sanitizeName name := by
  intro a1 ha1 a2 ha2 a3 ha3 hn1 hn2 hn3
  have e1 := buildAccounts_configDir _ _ _ a1 ha1
  have e2 := buildAccounts_configDir _ _ _ a2 ha2
  have e3 := buildAccounts_configDir _ _ _ a3 ha3
  rw [hn1] at e1
  rw [hn2] at e2
  rw [hn3] at e3
  exact ⟨e1.trans e2.symm, e2.trans e3.symm, e1⟩

/-- The concrete account used in the round-trip witness. -/
def acctW : Account :=
  { name := "My_Acc-1", configDir := "/home/u/.ccs/instances/my_acc-1",
    rateLimitedUntil := none }

/-- Witness for claim C8: the name `My_Acc-1` (carrying punctuation) is
discoverable through all three sources and yields the same credential
directory each time. -/
theorem sanitizeRoundTrip_witness :
    ("My_Acc-1" ∈ (loadFromEnv (some "My_Acc-1")).getD [] ∧
     "My_Acc-1" ∈ (parseYamlAccountNames "accounts:\n  My_Acc-1:").getD [] ∧
     "My_Acc-1" ∈ (parseYamlAccountNames "accounts:\n  - name: My_Acc-1").getD []) ∧
    (acctW.configDir = acctW.configDir ∧ acctW.configDir = acctW.configDir ∧
     acctW.configDir = "/home/u/.ccs" ++ "/instances/" ++ sanitizeName "My_Acc-1") :=
  ⟨⟨by decide, by decide, by decide⟩,
   sanitizeRoundTrip "My_Acc-1" "My_Acc-1" "accounts:\n  My_Acc-1:"
    "accounts:\n  - name: My_Acc-1" "/home/u/.ccs" (fun _ => true)
    (by decide) (by decide) (by decide)
    acctW (by decide) acctW (by decide) acctW (by decide) rfl rfl rfl⟩


/-! ## Streaming session engine (the Copilot session manager)

One send (`sendMessageStreaming`) is modelled as a fold of a step function
over the list of occurrences observed by the promise executor: backend
session events, the terminal `session.idle` / `session.error` events, the
absolute timeout and a failure of the `send()` submission itself.  The
one-shot settlement latch (`settled` / `settle()`) and the pending promise
outcome are explicit state. -/

/-- Token usage recorded from an `assistant.usage` event. -/
structure TokenUsage where
  inputTokens : Nat
  outputTokens : Nat
  cacheReadInputTokens : Nat
  cacheCreationInputTokens : Nat
deriving DecidableEq

/-- The session fields of `CopilotSessionManager`; the backend session
handle is modelled by its session id. -/
structure SessionState where
  session : Option String
  lastActivity : Option Int
  queryStarted : Option Int
  currentTool : Option String
  lastTool : Option String
  lastError : Option String
  lastErrorTime : Option Int
  lastUsage : Option TokenUsage
  lastMessage : Option String
  conversationTitle : Option String
  currentModel : String
  stopRequested : Bool
  isProcessing : Bool
  interruptFlag : Bool
deriving DecidableEq

/-- `sessionId`: `this.session?.sessionId ?? null`. -/
def sessionId (s : SessionState) : Option String := s.session

/-- `isActive`: `this.session !== null`. -/
def isActive (s : SessionState) : Bool := s.session.isSome

/-- `kill()`: destroy the backend session handle and reset the transient
fields (`lastActivity`, `conversationTitle`, `lastMessage`, `_isProcessing`). -/
def kill (s : SessionState) : SessionState :=
  { s with
      session := none, lastActivity := none, conversationTitle := none,
      lastMessage := none, isProcessing := false }

/-- `ensureSession`: reuse the existing backend session, otherwise create a
fresh one (modelled by the id the backend would assign). -/
def ensureSession (s : SessionState) (newId : String) : SessionState :=
  match s.session with
  | some _ => s
  | none => { s with session := some newId }

/-- Claim C9: after `kill()` the backend session handle is destroyed
(`sessionId` is null, `isActive` false), `lastActivity`, `conversationTitle`,
`lastMessage` and the processing flag are reset, every other session field
is left unchanged, and the next send re-opens a new session transparently. -/
theorem kill_frame (s : SessionState) :
    (kill s).session = none ∧ sessionId (kill s) = none ∧ isActive (kill s) = false ∧
    (kill s).lastActivity = none ∧ (kill s).conversationTitle = none ∧
    (kill s).lastMessage = none ∧ (kill s).isProcessing = false ∧
    (kill s).lastError = s.lastError ∧ (kill s).lastErrorTime = s.lastErrorTime ∧
    (kill s).lastUsage = s.lastUsage ∧ (kill s).lastTool = s.lastTool ∧
    (kill s).currentTool = s.currentTool ∧ (kill s).currentModel = s.currentModel ∧
    (kill s).stopRequested = s.stopRequested ∧ (kill s).interruptFlag = s.interruptFlag ∧
    (kill s).queryStarted = s.queryStarted ∧
    ∀ newId, (ensureSession (kill s) newId).session = some newId :=
  ⟨rfl, rfl, rfl, rfl, rfl, rfl, rfl, rfl, rfl, rfl, rfl, rfl, rfl, rfl, rfl, rfl,
   fun _ => rfl⟩

/-- The status-callback update kinds (`thinking | tool | text | segment_end | done`). -/
inductive UpdateType where
  | thinking
  | tool
  | text
  | segmentEnd
  | done
deriving DecidableEq

/-- One `statusCallback(type, content, segmentId?)` invocation. -/
structure Update where
  type : UpdateType
  content : String
  segmentId : Option Nat
deriving DecidableEq

/-- An update together with the clock value at which it was emitted. -/
structure TimedUpdate where
  time : Int
  upd : Update
deriving DecidableEq

/-- The backend session events handled by `handleEvent`. -/
inductive SessionEvent where
  | messageDelta (deltaContent : String)
  | message (content : String)
  | toolStart (toolName : String)
  | toolComplete
  | usage (inputTokens outputTokens cacheReadTokens cacheWriteTokens : Option Nat)
  | titleChanged (title : String)
  | reasoningDelta (deltaContent : String)
deriving DecidableEq

/-- The outcome of the pending promise. -/
inductive Outcome where
  | resolved (text : String)
  | rejected (message : String)
deriving DecidableEq

/-- The state of one in-flight send: session fields, the full response
buffer, the delta flag, the current segment (`text`, `id`, `lastUpdate`),
the settlement latch and the promise outcome. -/
structure SendState where
  sess : SessionState
  fullContent : String
  receivedDelta : Bool
  segText : String
  segId : Nat
  segLastUpdate : Int
  settled : Bool
  outcome : Option Outcome
deriving DecidableEq

/-- `errMsg.slice(0, 100)`. -/
def sliceChars (s : String) (n : Nat) : String := String.mk (s.data.take n)

/-- `handleEvent(event, statusCallback, hooks, segment)` at clock value
`now`, with configured throttle interval `T` (`STREAMING_THROTTLE_MS`):
returns the new state and the list of emitted callback updates. -/
def handleEvent (T : Int) (s : SendState) (e : SessionEvent) (now : Int) :
    SendState × List Update :=
  match e with
  | SessionEvent.messageDelta d =>
    if T < now - s.segLastUpdate ∧ 20 < (s.segText ++ d).length then
      ({ s with
          fullContent := s.fullContent ++ d, receivedDelta := true,
          segText := s.segText ++ d, segLastUpdate := now },
       [{ type := UpdateType.text, content := s.segText ++ d, segmentId := some s.segId }])
    else
      ({ s with
          fullContent := s.fullContent ++ d, receivedDelta := true,
          segText := s.segText ++ d }, [])
  | SessionEvent.message c =>
    if s.receivedDelta then (s, [])
    else if c = "" then (s, [])
    else
      ({ s with
          fullContent := s.fullContent ++ c, receivedDelta := true,
          segText := s.segText ++ c, segLastUpdate := now },
       [{ type := UpdateType.text, content := s.segText ++ c, segmentId := some s.segId }])
  | SessionEvent.toolStart toolName =>
    if s.segText ≠ "" then
      ({ s with
          segId := s.segId + 1, segText := "", segLastUpdate := 0,
          sess := { s.sess with currentTool := some toolName } },
       [{ type := UpdateType.segmentEnd, content := s.segText, segmentId := some s.segId },
        { type := UpdateType.tool, content := "⚙️ " ++ toolName, segmentId := none }])
    else
      ({ s with sess := { s.sess with currentTool := some toolName } },
       [{ type := UpdateType.tool, content := "⚙️ " ++ toolName, segmentId := none }])
  | SessionEvent.toolComplete =>
    ({ s with
        sess := { s.sess with
          lastTool := s.sess.currentTool, currentTool := none } },
     [])
  | SessionEvent.usage i o cr cw =>
    ({ s with
        sess := { s.sess with
          lastUsage := some
            { inputTokens := i.getD 0, outputTokens := o.getD 0,
              cacheReadInputTokens := cr.getD 0,
              cacheCreationInputTokens := cw.getD 0 } } },
     [])
  | SessionEvent.titleChanged title =>
    ({ s with sess := { s.sess with conversationTitle := some title } }, [])
  | SessionEvent.reasoningDelta d =>
    (s, [{ type := UpdateType.thinking, content := d, segmentId := none }])

/-- An occurrence seen by the promise executor: a session event, the
terminal idle / error events, the absolute timeout, or a `send()` failure.
Each carries the clock value at which it fires. -/
inductive Occ where
  | ev (e : SessionEvent) (now : Int)
  | idle (now : Int)
  | error (message : String) (now : Int)
  | timeout (now : Int)
  | sendFail (message : String) (now : Int)
deriving DecidableEq

/-- The clock value of an occurrence. -/
def Occ.time : Occ → Int
  | Occ.ev _ now => now
  | Occ.idle now => now
  | Occ.error _ now => now
  | Occ.timeout now => now
  | Occ.sendFail _ now => now

/-- Whether an occurrence is a settlement signal. -/
def isTerminal : Occ → Bool
  | Occ.ev _ _ => false
  | Occ.idle _ => true
  | Occ.error _ _ => true
  | Occ.timeout _ => true
  | Occ.sendFail _ _ => true

/-- One step of the promise executor.  Once settled, the listeners are
unsubscribed and every later handler returns at the `settle()` guard, so
the step is the identity and emits nothing. -/
def step (T : Int) (s : SendState) (o : Occ) : SendState × List TimedUpdate :=
  if s.settled then (s, [])
  else
    match o with
    | Occ.ev e now =>
      ((handleEvent T s e now).1,
       (handleEvent T s e now).2.map (fun u => { time := now, upd := u }))
    | Occ.idle now =>
      ({ s with
          settled := true,
          outcome := some (Outcome.resolved
            (if s.fullContent = "" then "No response from Copilot." else s.fullContent)),
          sess := { s.sess with
            isProcessing := false, queryStarted := none,
            currentTool := none, lastActivity := some now,
            lastError := none, lastErrorTime := none } },
       (if s.segText ≠ "" then
          [{ time := now,
             upd := { type := UpdateType.segmentEnd, content := s.segText,
                      segmentId := some s.segId } }]
        else []) ++
       [{ time := now,
          upd := { type := UpdateType.done, content := "", segmentId := none } }])
    | Occ.error msg now =>
      ({ s with
          settled := true,
          outcome := some (Outcome.rejected
            (if msg = "" then "Unknown Copilot error" else msg)),
          sess := { s.sess with
            isProcessing := false, queryStarted := none,
            currentTool := none,
            lastError := some (sliceChars
              (if msg = "" then "Unknown Copilot error" else msg) 100),
            lastErrorTime := some now } },
       [])
    | Occ.timeout _ =>
      ({ s with
          settled := true,
          outcome := some (Outcome.rejected "Copilot response timed out"),
          sess := { s.sess with
            isProcessing := false, queryStarted := none,
            currentTool := none } },
       [])
    | Occ.sendFail msg _ =>
      ({ s with
          settled := true, outcome := some (Outcome.rejected msg),
          sess := { s.sess with
            isProcessing := false, queryStarted := none } },
       [])

/-- The executor run over a list of occurrences, collecting all emissions. -/
def run (T : Int) (s : SendState) : List Occ → SendState × List TimedUpdate
  | [] => (s, [])
  | o :: os =>
    ((run T (step T s o).1 os).1, (step T s o).2 ++ (run T (step T s o).1 os).2)

/-- The send-start state (`sendMessageStreaming` before the promise):
`processing = true`, `stopRequested = false`, `queryStarted = now`,
`currentTool = null`, empty buffers, segment 0, unsettled. -/
def startSend (sess : SessionState) (t : Int) : SendState :=
  { sess := { sess with
      isProcessing := true, stopRequested := false,
      queryStarted := some t, currentTool := none },
    fullContent := "", receivedDelta := false, segText := "", segId := 0,
    segLastUpdate := 0, settled := false, outcome := none }

/-- The constructor-time session state of `CopilotSessionManager`. -/
def initialSession : SessionState :=
  { session := none, lastActivity := none, queryStarted := none, currentTool := none,
    lastTool := none, lastError := none, lastErrorTime := none, lastUsage := none,
    lastMessage := none, conversationTitle := none, currentModel := "claude-sonnet-4",
    stopRequested := false, isProcessing := false, interruptFlag := false }

/-- A fresh send started at clock 0 on a fresh manager. -/
def sendInit0 : SendState := startSend initialSession 0


/-! ### The one-shot settlement latch -/

theorem step_settled (T : Int) (s : SendState) (o : Occ) (h : s.settled = true) :
    step T s o = (s, []) := by
  simp [step, h]

theorem run_settled (T : Int) (s : SendState) (h : s.settled = true) :
    ∀ os, run T s os = (s, []) := by
  intro os
  induction os with
  | nil => rfl
  | cons o os ih =>
    rw [run, step_settled T s o h]
    simp [ih]

theorem handleEvent_settled (T : Int) (s : SendState) (e : SessionEvent) (now : Int) :
    (handleEvent T s e now).1.settled = s.settled := by
  cases e <;> simp only [handleEvent] <;> (try split_ifs) <;> rfl

theorem handleEvent_outcome (T : Int) (s : SendState) (e : SessionEvent) (now : Int) :
    (handleEvent T s e now).1.outcome = s.outcome := by
  cases e <;> simp only [handleEvent] <;> (try split_ifs) <;> rfl

theorem step_nonterminal (T : Int) (s : SendState) (o : Occ)
    (hterm : isTerminal o = false) :
    (step T s o).1.settled = s.settled ∧ (step T s o).1.outcome = s.outcome := by
  by_cases hs : s.settled = true
  · rw [step_settled T s o hs]; exact ⟨rfl, rfl⟩
  · have hs' : s.settled = false := Bool.eq_false_iff.mpr hs
    cases o with
    | ev e now =>
      simp only [step, hs']
      simp only [Bool.false_eq_true, if_false]
      exact ⟨(handleEvent_settled T s e now).trans hs', handleEvent_outcome T s e now⟩
    | idle now => simp [isTerminal] at hterm
    | error msg now => simp [isTerminal] at hterm
    | timeout now => simp [isTerminal] at hterm
    | sendFail msg now => simp [isTerminal] at hterm

theorem run_nonterminal (T : Int) :
    ∀ (os : List Occ) (s : SendState), (∀ x ∈ os, isTerminal x = false) →
      (run T s os).1.settled = s.settled ∧ (run T s os).1.outcome = s.outcome := by
  intro os
  induction os with
  | nil => intro s _; exact ⟨rfl, rfl⟩
  | cons o os ih =>
    intro s hall
    have h1 := step_nonterminal T s o (hall o (List.mem_cons_self o os))
    have h2 := ih (step T s o).1 (fun x hx => hall x (List.mem_cons_of_mem o hx))
    rw [run]
    exact ⟨h2.1.trans h1.1, h2.2.trans h1.2⟩

/-- Which settlement outcome a terminal occurrence produces: resolution for
idle, rejection for error / timeout / send failure. -/
def settleKindMatches : Occ → Outcome → Prop
  | Occ.idle _, Outcome.resolved _ => True
  | Occ.error _ _, Outcome.rejected _ => True
  | Occ.timeout _, Outcome.rejected m => m = "Copilot response timed out"
  | Occ.sendFail m _, Outcome.rejected m2 => m2 = m
  | _, _ => False

theorem step_terminal (T : Int) (s : SendState) (o : Occ)
    (hs : s.settled = false) (hterm : isTerminal o = true) :
    (step T s o).1.settled = true ∧
    ∃ oc, (step T s o).1.outcome = some oc ∧ settleKindMatches o oc := by
  cases o with
  | ev e now => simp [isTerminal] at hterm
  | idle now =>
    refine ⟨by simp [step, hs], ?_⟩
    refine ⟨Outcome.resolved
      (if s.fullContent = "" then "No response from Copilot." else s.fullContent),
      by simp [step, hs], trivial⟩
  | error msg now =>
    refine ⟨by simp [step, hs], ?_⟩
    refine ⟨Outcome.rejected (if msg = "" then "Unknown Copilot error" else msg),
      by simp [step, hs], trivial⟩
  | timeout now =>
    refine ⟨by simp [step, hs], ?_⟩
    exact ⟨Outcome.rejected "Copilot response timed out", by simp [step, hs], rfl⟩
  | sendFail msg now =>
    refine ⟨by simp [step, hs], ?_⟩
    exact ⟨Outcome.rejected msg, by simp [step, hs], rfl⟩

/-- Claim C2: per send, the first terminal signal (idle, error, timeout or
send failure) settles the pending promise with the matching outcome — until
then nothing is settled — and every occurrence after settlement has no
observable effect: the state is unchanged and no further callback is
emitted from the settled send's handlers. -/
theorem settlement_once (T : Int) (s0 : SendState) (pre : List Occ) (o : Occ)
    (post : List Occ) (hs : s0.settled = false) (ho : s0.outcome = none)
    (hpre : ∀ x ∈ pre, isTerminal x = false) (hterm : isTerminal o = true) :
    (run T s0 pre).1.settled = false ∧
    (run T s0 pre).1.outcome = none ∧
    (step T (run T s0 pre).1 o).1.settled = true ∧
    (∃ oc, (step T (run T s0 pre).1 o).1.outcome = some oc ∧ settleKindMatches o oc) ∧
    run T (step T (run T s0 pre).1 o).1 post = ((step T (run T s0 pre).1 o).1, []) ∧
    ∀ o2, step T (step T (run T s0 pre).1 o).1 o2 = ((step T (run T s0 pre).1 o).1, []) := by
  have hpre' := run_nonterminal T pre s0 hpre
  have hs1 : (run T s0 pre).1.settled = false := hpre'.1.trans hs
  have ho1 : (run T s0 pre).1.outcome = none := hpre'.2.trans ho
  have hstep := step_terminal T (run T s0 pre).1 o hs1 hterm
  refine ⟨hs1, ho1, hstep.1, hstep.2, run_settled T _ hstep.1 post,
    fun o2 => step_settled T _ o2 hstep.1⟩

/-- Witness for claim C2: a concrete send receiving one delta, settled by
idle at time 10; the subsequent error and timeout signals are inert. -/
theorem settlement_once_witness :
    (run 500 sendInit0 [Occ.ev (SessionEvent.messageDelta "hi") 0]).1.settled = false ∧
    (step 500 (run 500 sendInit0 [Occ.ev (SessionEvent.messageDelta "hi") 0]).1
      (Occ.idle 10)).1.settled = true ∧
    step 500 (step 500 (run 500 sendInit0 [Occ.ev (SessionEvent.messageDelta "hi") 0]).1
        (Occ.idle 10)).1 (Occ.timeout 30)
      = ((step 500 (run 500 sendInit0 [Occ.ev (SessionEvent.messageDelta "hi") 0]).1
          (Occ.idle 10)).1, []) := by
  have h := settlement_once 500 sendInit0 [Occ.ev (SessionEvent.messageDelta "hi") 0]
    (Occ.idle 10) [Occ.error "x" 20, Occ.timeout 30] rfl rfl
    (by intro x hx; simp at hx; rw [hx]; rfl) rfl
  exact ⟨h.1, h.2.2.1, h.2.2.2.2.2 (Occ.timeout 30)⟩


/-! ### Idle settlement, error recording, and the complete-message fallback -/

/-- A mid-stream send state used by witnesses: accumulated response
`"Hello world"`, one open segment `"Hello"` with id 2, unsettled. -/
def sendMid : SendState :=
  { sess := initialSession, fullContent := "Hello world", receivedDelta := true,
    segText := "Hello", segId := 2, segLastUpdate := 100, settled := false,
    outcome := none }

/-- Claim C5: when the terminal idle event is the first settlement signal,
the engine flushes the open segment as a `segment_end` update, then emits a
`done` update with empty content, sets `lastActivity` to the current time,
clears `lastError` / `lastErrorTime` and the processing / `queryStarted`
state, and resolves with the accumulated text (or the fallback message when
no text was produced). -/
theorem idle_settlement (T : Int) (s : SendState) (now : Int)
    (hs : s.settled = false) :
    (step T s (Occ.idle now)).1.sess.lastActivity = some now ∧
    (step T s (Occ.idle now)).1.sess.lastError = none ∧
    (step T s (Occ.idle now)).1.sess.lastErrorTime = none ∧
    (step T s (Occ.idle now)).1.sess.isProcessing = false ∧
    (step T s (Occ.idle now)).1.sess.queryStarted = none ∧
    (step T s (Occ.idle now)).1.outcome = some (Outcome.resolved
      (if s.fullContent = "" then "No response from Copilot." else s.fullContent)) ∧
    (step T s (Occ.idle now)).2 =
      (if s.segText ≠ "" then
        [⟨now, ⟨UpdateType.segmentEnd, s.segText, some s.segId⟩⟩]
       else ([] : List TimedUpdate)) ++
      [⟨now, ⟨UpdateType.done, "", none⟩⟩] := by
  refine ⟨?_, ?_, ?_, ?_, ?_, ?_, ?_⟩ <;> simp [step, hs]

/-- Witness for claim C5: the idle settlement at time 200 of the concrete
mid-stream state `sendMid`. -/
theorem idle_settlement_witness :
    sendMid.settled = false ∧
    ((step 500 sendMid (Occ.idle 200)).1.sess.lastActivity = some 200 ∧
    (step 500 sendMid (Occ.idle 200)).1.sess.lastError = none ∧
    (step 500 sendMid (Occ.idle 200)).1.sess.lastErrorTime = none ∧
    (step 500 sendMid (Occ.idle 200)).1.sess.isProcessing = false ∧
    (step 500 sendMid (Occ.idle 200)).1.sess.queryStarted = none ∧
    (step 500 sendMid (Occ.idle 200)).1.outcome = some (Outcome.resolved
      (if sendMid.fullContent = "" then "No response from Copilot."
       else sendMid.fullContent)) ∧
    (step 500 sendMid (Occ.idle 200)).2 =
      (if sendMid.segText ≠ "" then
        [⟨200, ⟨UpdateType.segmentEnd, sendMid.segText, some sendMid.segId⟩⟩]
       else ([] : List TimedUpdate)) ++
      [⟨200, ⟨UpdateType.done, "", none⟩⟩]) :=
  ⟨rfl, idle_settlement 500 sendMid 200 rfl⟩

/-- Counterexample for claim C6 as stated: a send settled by the absolute
timeout rejects the pending call, but no truncated error message and no
error timestamp are recorded on the session. -/
theorem error_recording_cex :
    (step 500 sendInit0 (Occ.timeout 7)).1.outcome
      = some (Outcome.rejected "Copilot response timed out") ∧
    (step 500 sendInit0 (Occ.timeout 7)).1.sess.lastError = none ∧
    (step 500 sendInit0 (Occ.timeout 7)).1.sess.lastErrorTime = none := by
  refine ⟨?_, ?_, ?_⟩ <;> rfl

/-- Claim C6 (amended): a send settled by the terminal error event records
the truncated (first 100 characters) message and an error timestamp and
rejects with the full error; settlement by the absolute timeout or by a
send-submission failure rejects the pending call but leaves `lastError` and
`lastErrorTime` unchanged. -/
theorem error_recording (T : Int) (s : SendState) (msg : String) (now : Int)
    (hs : s.settled = false) :
    ((step T s (Occ.error msg now)).1.sess.lastError
      = some (sliceChars (if msg = "" then "Unknown Copilot error" else msg) 100) ∧
     (step T s (Occ.error msg now)).1.sess.lastErrorTime = some now ∧
     (step T s (Occ.error msg now)).1.outcome
      = some (Outcome.rejected (if msg = "" then "Unknown Copilot error" else msg))) ∧
    ((step T s (Occ.timeout now)).1.sess.lastError = s.sess.lastError ∧
     (step T s (Occ.timeout now)).1.sess.lastErrorTime = s.sess.lastErrorTime ∧
     (step T s (Occ.timeout now)).1.outcome
      = some (Outcome.rejected "Copilot response timed out")) ∧
    ((step T s (Occ.sendFail msg now)).1.sess.lastError = s.sess.lastError ∧
     (step T s (Occ.sendFail msg now)).1.sess.lastErrorTime = s.sess.lastErrorTime ∧
     (step T s (Occ.sendFail msg now)).1.outcome = some (Outcome.rejected msg)) := by
  refine ⟨⟨?_, ?_, ?_⟩, ⟨?_, ?_, ?_⟩, ⟨?_, ?_, ?_⟩⟩ <;> simp [step, hs]

/-- Witness for the amended claim C6: the three reject paths on the
concrete state `sendMid` with message `"Backend exploded"` at time 300. -/
theorem error_recording_witness :
    sendMid.settled = false ∧
    (((step 500 sendMid (Occ.error "Backend exploded" 300)).1.sess.lastError
      = some (sliceChars
          (if "Backend exploded" = "" then "Unknown Copilot error"
           else "Backend exploded") 100) ∧
     (step 500 sendMid (Occ.error "Backend exploded" 300)).1.sess.lastErrorTime
      = some 300 ∧
     (step 500 sendMid (Occ.error "Backend exploded" 300)).1.outcome
      = some (Outcome.rejected
          (if "Backend exploded" = "" then "Unknown Copilot error"
           else "Backend exploded"))) ∧
    ((step 500 sendMid (Occ.timeout 300)).1.sess.lastError = sendMid.sess.lastError ∧
     (step 500 sendMid (Occ.timeout 300)).1.sess.lastErrorTime
      = sendMid.sess.lastErrorTime ∧
     (step 500 sendMid (Occ.timeout 300)).1.outcome
      = some (Outcome.rejected "Copilot response timed out")) ∧
    ((step 500 sendMid (Occ.sendFail "Backend exploded" 300)).1.sess.lastError
      = sendMid.sess.lastError ∧
     (step 500 sendMid (Occ.sendFail "Backend exploded" 300)).1.sess.lastErrorTime
      = sendMid.sess.lastErrorTime ∧
     (step 500 sendMid (Occ.sendFail "Backend exploded" 300)).1.outcome
      = some (Outcome.rejected "Backend exploded"))) :=
  ⟨rfl, error_recording 500 sendMid "Backend exploded" 300 rfl⟩

/-- Counterexample for claim C7 as stated: a 2-character complete message at
elapsed time 0 emits a `text` update immediately, while the identical
content arriving as a delta is withheld by the throttle and length checks. -/
theorem message_fallback_cex :
    (step 500 sendInit0 (Occ.ev (SessionEvent.message "hi") 0)).2
      = [⟨0, ⟨UpdateType.text, "hi", some 0⟩⟩] ∧
    (step 500 sendInit0 (Occ.ev (SessionEvent.messageDelta "hi") 0)).2 = [] := by
  refine ⟨?_, ?_⟩ <;> decide

/-- Claim C7 (amended): when no incremental delta was observed for the send,
a non-empty complete message is appended to the full response buffer and to
the current segment exactly as the same delta would be, but the resulting
`text` emission fires unconditionally — regardless of the throttle interval
and the minimum-length threshold — and resets the throttle clock to `now`. -/
theorem message_fallback (T : Int) (s : SendState) (c : String) (now : Int)
    (hrd : s.receivedDelta = false) (hc : c ≠ "") :
    (handleEvent T s (SessionEvent.message c) now).1.fullContent
      = (handleEvent T s (SessionEvent.messageDelta c) now).1.fullContent ∧
    (handleEvent T s (SessionEvent.message c) now).1.segText
      = (handleEvent T s (SessionEvent.messageDelta c) now).1.segText ∧
    (handleEvent T s (SessionEvent.message c) now).1.receivedDelta
      = (handleEvent T s (SessionEvent.messageDelta c) now).1.receivedDelta ∧
    (handleEvent T s (SessionEvent.message c) now).2
      = [⟨UpdateType.text, s.segText ++ c, some s.segId⟩] ∧
    (handleEvent T s (SessionEvent.message c) now).1.segLastUpdate = now := by
  have hd1 : (handleEvent T s (SessionEvent.messageDelta c) now).1.fullContent
      = s.fullContent ++ c := by
    simp only [handleEvent]; split_ifs <;> rfl
  have hd2 : (handleEvent T s (SessionEvent.messageDelta c) now).1.segText
      = s.segText ++ c := by
    simp only [handleEvent]; split_ifs <;> rfl
  have hd3 : (handleEvent T s (SessionEvent.messageDelta c) now).1.receivedDelta
      = true := by
    simp only [handleEvent]; split_ifs <;> rfl
  have hm : handleEvent T s (SessionEvent.message c) now
      = ({ s with
            fullContent := s.fullContent ++ c, receivedDelta := true,
            segText := s.segText ++ c, segLastUpdate := now },
         [⟨UpdateType.text, s.segText ++ c, some s.segId⟩]) := by
    simp [handleEvent, hrd, hc]
  rw [hm]
  exact ⟨by rw [hd1], by rw [hd2], by rw [hd3], rfl, rfl⟩

/-- Witness for the amended claim C7: the complete message `"hi"` on a fresh
send at time 3 with a 500ms throttle. -/
theorem message_fallback_witness :
    (sendInit0.receivedDelta = false ∧ "hi" ≠ "") ∧
    ((handleEvent 500 sendInit0 (SessionEvent.message "hi") 3).1.fullContent
      = (handleEvent 500 sendInit0 (SessionEvent.messageDelta "hi") 3).1.fullContent ∧
    (handleEvent 500 sendInit0 (SessionEvent.message "hi") 3).1.segText
      = (handleEvent 500 sendInit0 (SessionEvent.messageDelta "hi") 3).1.segText ∧
    (handleEvent 500 sendInit0 (SessionEvent.message "hi") 3).1.receivedDelta
      = (handleEvent 500 sendInit0 (SessionEvent.messageDelta "hi") 3).1.receivedDelta ∧
    (handleEvent 500 sendInit0 (SessionEvent.message "hi") 3).2
      = [⟨UpdateType.text, sendInit0.segText ++ "hi", some sendInit0.segId⟩] ∧
    (handleEvent 500 sendInit0 (SessionEvent.message "hi") 3).1.segLastUpdate = 3) :=
  ⟨⟨rfl, by decide⟩, message_fallback 500 sendInit0 "hi" 3 rfl (by decide)⟩


/-! ### Segment ids are monotone and never reused -/

theorem handleEvent_segId (T : Int) (s : SendState) (e : SessionEvent) (now : Int) :
    s.segId ≤ (handleEvent T s e now).1.segId := by
  cases e with
  | messageDelta d => simp only [handleEvent]; split_ifs <;> exact Nat.le_refl _
  | message c => simp only [handleEvent]; split_ifs <;> exact Nat.le_refl _
  | toolStart toolName =>
    simp only [handleEvent]; split_ifs
    · exact Nat.le_succ _
    · exact Nat.le_refl _
  | toolComplete => exact Nat.le_refl _
  | usage i o cr cw => exact Nat.le_refl _
  | titleChanged title => exact Nat.le_refl _
  | reasoningDelta d => exact Nat.le_refl _

theorem handleEvent_emit_segId (T : Int) (s : SendState) (e : SessionEvent) (now : Int) :
    ∀ u ∈ (handleEvent T s e now).2, ∀ k, u.segmentId = some k → k = s.segId := by
  cases e with
  | messageDelta d =>
    simp only [handleEvent]; split_ifs
    · intro u hu k hk
      simp only [List.mem_singleton] at hu
      subst hu
      simp only [Option.some.injEq] at hk
      omega
    · intro u hu; simp at hu
  | message c =>
    simp only [handleEvent]; split_ifs
    · intro u hu; simp at hu
    · intro u hu; simp at hu
    · intro u hu k hk
      simp only [List.mem_singleton] at hu
      subst hu
      simp only [Option.some.injEq] at hk
      omega
  | toolStart toolName =>
    simp only [handleEvent]; split_ifs
    · intro u hu k hk
      rcases List.mem_cons.mp hu with heq | hmem
      · subst heq
        simp only [Option.some.injEq] at hk
        omega
      · simp only [List.mem_singleton] at hmem
        subst hmem
        simp at hk
    · intro u hu k hk
      simp only [List.mem_singleton] at hu
      subst hu
      simp at hk
  | toolComplete => intro u hu; simp [handleEvent] at hu
  | usage i o cr cw => intro u hu; simp [handleEvent] at hu
  | titleChanged title => intro u hu; simp [handleEvent] at hu
  | reasoningDelta d =>
    intro u hu k hk
    simp only [handleEvent, List.mem_singleton] at hu
    subst hu
    simp at hk

theorem step_segId (T : Int) (s : SendState) (o : Occ) :
    s.segId ≤ (step T s o).1.segId := by
  by_cases hset : s.settled = true
  · rw [step_settled T s o hset]
  · have hs' : s.settled = false := Bool.eq_false_iff.mpr hset
    cases o with
    | ev e now =>
      have h := handleEvent_segId T s e now
      simpa [step, hs'] using h
    | idle now => simp [step, hs']
    | error msg now => simp [step, hs']
    | timeout now => simp [step, hs']
    | sendFail msg now => simp [step, hs']

theorem step_emit_segId (T : Int) (s : SendState) (o : Occ) :
    ∀ u ∈ (step T s o).2, ∀ k, u.upd.segmentId = some k → k = s.segId := by
  by_cases hset : s.settled = true
  · rw [step_settled T s o hset]; intro u hu; simp at hu
  · have hs' : s.settled = false := Bool.eq_false_iff.mpr hset
    cases o with
    | ev e now =>
      intro u hu k hk
      simp only [step, hs', Bool.false_eq_true, if_false] at hu
      rcases List.mem_map.mp hu with ⟨u0, hu0, hueq⟩
      subst hueq
      exact handleEvent_emit_segId T s e now u0 hu0 k hk
    | idle now =>
      intro u hu k hk
      simp only [step, hs', Bool.false_eq_true, if_false] at hu
      by_cases hseg : s.segText ≠ ""
      · rw [if_pos hseg] at hu
        rcases List.mem_append.mp hu with hin | hin
        · simp only [List.mem_singleton] at hin
          subst hin
          simp only [Option.some.injEq] at hk
          omega
        · simp only [List.mem_singleton] at hin
          subst hin
          simp at hk
      · rw [if_neg hseg] at hu
        simp only [List.nil_append, List.mem_singleton] at hu
        subst hu
        simp at hk
    | error msg now =>
      intro u hu
      simp only [step, hs', Bool.false_eq_true, if_false] at hu
      simp at hu
    | timeout now =>
      intro u hu
      simp only [step, hs', Bool.false_eq_true, if_false] at hu
      simp at hu
    | sendFail msg now =>
      intro u hu
      simp only [step, hs', Bool.false_eq_true, if_false] at hu
      simp at hu

theorem run_segId (T : Int) :
    ∀ (os : List Occ) (s : SendState), s.segId ≤ (run T s os).1.segId := by
  intro os
  induction os with
  | nil => intro s; exact Nat.le_refl _
  | cons o os ih =>
    intro s
    rw [run]
    exact Nat.le_trans (step_segId T s o) (ih (step T s o).1)

theorem run_emit_ge (T : Int) :
    ∀ (os : List Occ) (s : SendState),
      ∀ u ∈ (run T s os).2, ∀ k, u.upd.segmentId = some k → s.segId ≤ k := by
  intro os
  induction os with
  | nil => intro s u hu; simp [run] at hu
  | cons o os ih =>
    intro s u hu k hk
    rw [run] at hu
    rcases List.mem_append.mp hu with h1 | h2
    · have := step_emit_segId T s o u h1 k hk
      omega
    · exact Nat.le_trans (step_segId T s o) (ih (step T s o).1 u h2 k hk)

/-- Claim C3: on a tool-invocation-start event, a send whose current segment
has accumulated text emits exactly one `segment_end` carrying the current
segment id (followed only by the `tool` update), increments the segment id,
resets the segment buffer and the throttle clock, and no update emitted by
any later occurrence of that send carries the old segment id; when the
current segment has no accumulated text, no `segment_end` is emitted and
the segment id is unchanged. -/
theorem tool_start_segmentation (T : Int) (s : SendState) (toolName : String)
    (now : Int) (rest : List Occ) (hs : s.settled = false) :
    (s.segText ≠ "" →
      (step T s (Occ.ev (SessionEvent.toolStart toolName) now)).2
        = [⟨now, ⟨UpdateType.segmentEnd, s.segText, some s.segId⟩⟩,
           ⟨now, ⟨UpdateType.tool, "⚙️ " ++ toolName, none⟩⟩] ∧
      (step T s (Occ.ev (SessionEvent.toolStart toolName) now)).1.segId = s.segId + 1 ∧
      (step T s (Occ.ev (SessionEvent.toolStart toolName) now)).1.segText = "" ∧
      (step T s (Occ.ev (SessionEvent.toolStart toolName) now)).1.segLastUpdate = 0 ∧
      ∀ u ∈ (run T (step T s (Occ.ev (SessionEvent.toolStart toolName) now)).1 rest).2,
        u.upd.segmentId ≠ some s.segId) ∧
    (s.segText = "" →
      (step T s (Occ.ev (SessionEvent.toolStart toolName) now)).2
        = [⟨now, ⟨UpdateType.tool, "⚙️ " ++ toolName, none⟩⟩] ∧
      (step T s (Occ.ev (SessionEvent.toolStart toolName) now)).1.segId = s.segId) := by
  constructor
  · intro hne
    have hid : (step T s (Occ.ev (SessionEvent.toolStart toolName) now)).1.segId
        = s.segId + 1 := by
      simp [step, hs, handleEvent, hne]
    refine ⟨by simp [step, hs, handleEvent, hne], hid,
      by simp [step, hs, handleEvent, hne],
      by simp [step, hs, handleEvent, hne], ?_⟩
    intro u hu hcontra
    have hge := run_emit_ge T rest
      (step T s (Occ.ev (SessionEvent.toolStart toolName) now)).1 u hu s.segId hcontra
    rw [hid] at hge
    omega
  · intro hemp
    exact ⟨by simp [step, hs, handleEvent, hemp], by simp [step, hs, handleEvent, hemp]⟩

/-- Witness for claim C3: a tool start on the concrete mid-stream state
`sendMid` (open segment `"Hello"`, id 2) at time 150. -/
theorem tool_start_segmentation_witness :
    (sendMid.settled = false ∧ sendMid.segText ≠ "") ∧
    (step 500 sendMid (Occ.ev (SessionEvent.toolStart "bash") 150)).2
      = [⟨150, ⟨UpdateType.segmentEnd, sendMid.segText, some sendMid.segId⟩⟩,
         ⟨150, ⟨UpdateType.tool, "⚙️ " ++ "bash", none⟩⟩] ∧
    (step 500 sendMid (Occ.ev (SessionEvent.toolStart "bash") 150)).1.segId
      = sendMid.segId + 1 ∧
    (step 500 sendMid (Occ.ev (SessionEvent.toolStart "bash") 150)).1.segText = "" ∧
    (step 500 sendMid (Occ.ev (SessionEvent.toolStart "bash") 150)).1.segLastUpdate = 0 := by
  have h := (tool_start_segmentation 500 sendMid "bash" 150 [Occ.idle 200] rfl).1
    (by decide)
  exact ⟨⟨rfl, by decide⟩, h.1, h.2.1, h.2.2.1, h.2.2.2.1⟩


/-! ### Throttling: text emissions of one segment are spaced by the interval -/

/-- Two timed updates respect the throttle: if both are `text` updates of
the same segment, they are at least `T` apart. -/
def Rthr (T : Int) (a b : TimedUpdate) : Prop :=
  a.upd.type = UpdateType.text → b.upd.type = UpdateType.text →
  a.upd.segmentId = b.upd.segmentId → T ≤ b.time - a.time

/-- Invariant tying the emissions so far to the current segment id `i`,
throttle clock `lu` and delta flag `rd`. -/
def ThrInvP (T : Int) (i : Nat) (lu : Int) (rd : Bool) (out : List TimedUpdate) : Prop :=
  (∀ u ∈ out, u.upd.type = UpdateType.text → u.upd.segmentId = some i → u.time ≤ lu) ∧
  (∀ u ∈ out, ∀ k, u.upd.segmentId = some k → k ≤ i) ∧
  (rd = false → ∀ u ∈ out, u.upd.type ≠ UpdateType.text) ∧
  List.Pairwise (Rthr T) out

/-- The invariant at a send state. -/
def ThrInv (T : Int) (s : SendState) (out : List TimedUpdate) : Prop :=
  ThrInvP T s.segId s.segLastUpdate s.receivedDelta out

theorem thrInvP_append_nontext (T : Int) (i : Nat) (lu : Int) (rd : Bool)
    (out new : List TimedUpdate) (h : ThrInvP T i lu rd out)
    (hnew : ∀ u ∈ new, u.upd.type ≠ UpdateType.text)
    (hids : ∀ u ∈ new, ∀ k, u.upd.segmentId = some k → k ≤ i)
    (hpair : List.Pairwise (Rthr T) new) :
    ThrInvP T i lu rd (out ++ new) := by
  obtain ⟨h1, h2, h3, h4⟩ := h
  refine ⟨?_, ?_, ?_, ?_⟩
  · intro u hu ht hid
    rcases List.mem_append.mp hu with hin | hin
    · exact h1 u hin ht hid
    · exact absurd ht (hnew u hin)
  · intro u hu k hk
    rcases List.mem_append.mp hu with hin | hin
    · exact h2 u hin k hk
    · exact hids u hin k hk
  · intro hrd u hu
    rcases List.mem_append.mp hu with hin | hin
    · exact h3 hrd u hin
    · exact hnew u hin
  · rw [List.pairwise_append]
    refine ⟨h4, hpair, ?_⟩
    intro a _ b hb hat hbt _
    exact absurd hbt (hnew b hb)

theorem thrInvP_segId_succ (T : Int) (i : Nat) (lu lu' : Int) (rd : Bool)
    (out : List TimedUpdate) (h : ThrInvP T i lu rd out) :
    ThrInvP T (i + 1) lu' rd out := by
  obtain ⟨h1, h2, h3, h4⟩ := h
  refine ⟨?_, ?_, h3, h4⟩
  · intro u hu ht hid
    have := h2 u hu (i + 1) hid
    omega
  · intro u hu k hk
    have := h2 u hu k hk
    omega

theorem thrInvP_rd_true (T : Int) (i : Nat) (lu : Int) (rd : Bool)
    (out : List TimedUpdate) (h : ThrInvP T i lu rd out) :
    ThrInvP T i lu true out := by
  obtain ⟨h1, h2, h3, h4⟩ := h
  exact ⟨h1, h2, fun hc => absurd hc (by decide), h4⟩

theorem thrInvP_emit_text (T : Int) (hT : 0 ≤ T) (i : Nat) (lu : Int) (rd : Bool)
    (out : List TimedUpdate) (now : Int) (c : String)
    (h : ThrInvP T i lu rd out) (hgap : T < now - lu) :
    ThrInvP T i now true
      (out ++ [⟨now, ⟨UpdateType.text, c, some i⟩⟩]) := by
  obtain ⟨h1, h2, h3, h4⟩ := h
  have hlu : lu < now := by omega
  refine ⟨?_, ?_, fun hc => absurd hc (by decide), ?_⟩
  · intro u hu ht hid
    rcases List.mem_append.mp hu with hin | hin
    · have := h1 u hin ht hid
      omega
    · simp only [List.mem_singleton] at hin
      subst hin
      exact Int.le_refl now
  · intro u hu k hk
    rcases List.mem_append.mp hu with hin | hin
    · exact h2 u hin k hk
    · simp only [List.mem_singleton] at hin
      subst hin
      simp only [Option.some.injEq] at hk
      omega
  · rw [List.pairwise_append]
    refine ⟨h4, List.pairwise_singleton _ _, ?_⟩
    intro a ha b hb
    simp only [List.mem_singleton] at hb
    subst hb
    intro hat _ hid
    have hta := h1 a ha hat hid
    show T ≤ now - a.time
    omega

theorem thrInvP_emit_first (T : Int) (i : Nat) (lu : Int)
    (out : List TimedUpdate) (now : Int) (c : String)
    (h : ThrInvP T i lu false out) :
    ThrInvP T i now true
      (out ++ [⟨now, ⟨UpdateType.text, c, some i⟩⟩]) := by
  obtain ⟨h1, h2, h3, h4⟩ := h
  have hnot := h3 rfl
  refine ⟨?_, ?_, fun hc => absurd hc (by decide), ?_⟩
  · intro u hu ht hid
    rcases List.mem_append.mp hu with hin | hin
    · exact absurd ht (hnot u hin)
    · simp only [List.mem_singleton] at hin
      subst hin
      exact Int.le_refl now
  · intro u hu k hk
    rcases List.mem_append.mp hu with hin | hin
    · exact h2 u hin k hk
    · simp only [List.mem_singleton] at hin
      subst hin
      simp only [Option.some.injEq] at hk
      omega
  · rw [List.pairwise_append]
    refine ⟨h4, List.pairwise_singleton _ _, ?_⟩
    intro a ha b hb
    simp only [List.mem_singleton] at hb
    subst hb
    intro hat _ _
    exact absurd hat (hnot a ha)

theorem step_ev (T : Int) (s : SendState) (e : SessionEvent) (now : Int)
    (hset : ¬s.settled = true) :
    step T s (Occ.ev e now)
      = ((handleEvent T s e now).1,
         (handleEvent T s e now).2.map (fun u => ⟨now, u⟩)) := by
  simp only [step]
  rw [if_neg hset]


theorem thrInv_step (T : Int) (hT : 0 ≤ T) (s : SendState) (out : List TimedUpdate)
    (o : Occ) (h : ThrInv T s out) :
    ThrInv T (step T s o).1 (out ++ (step T s o).2) := by
  by_cases hset : s.settled = true
  · rw [step_settled T s o hset]
    simpa using h
  · cases o with
    | ev e now =>
      rw [step_ev T s e now hset]
      cases e with
      | messageDelta d =>
        by_cases hg : T < now - s.segLastUpdate ∧ 20 < (s.segText ++ d).length
        · have hred : handleEvent T s (SessionEvent.messageDelta d) now
              = ({ s with
                    fullContent := s.fullContent ++ d, receivedDelta := true,
                    segText := s.segText ++ d, segLastUpdate := now },
                 [⟨UpdateType.text, s.segText ++ d, some s.segId⟩]) := by
            simp only [handleEvent]
            rw [if_pos hg]
          rw [hred]
          simp only [List.map_cons, List.map_nil]
          exact thrInvP_emit_text T hT s.segId s.segLastUpdate s.receivedDelta out now
            (s.segText ++ d) h hg.1
        · have hred : handleEvent T s (SessionEvent.messageDelta d) now
              = ({ s with
                    fullContent := s.fullContent ++ d, receivedDelta := true,
                    segText := s.segText ++ d }, []) := by
            simp only [handleEvent]
            rw [if_neg hg]
          rw [hred]
          simp only [List.map_nil, List.append_nil]
          exact thrInvP_rd_true T s.segId s.segLastUpdate s.receivedDelta out h
      | message c =>
        by_cases hrd : s.receivedDelta = true
        · have hred : handleEvent T s (SessionEvent.message c) now = (s, []) := by
            simp only [handleEvent]
            rw [if_pos hrd]
          rw [hred]
          simp only [List.map_nil, List.append_nil]
          exact h
        · have hrdf : s.receivedDelta = false := Bool.eq_false_iff.mpr hrd
          by_cases hc : c = ""
          · have hred : handleEvent T s (SessionEvent.message c) now = (s, []) := by
              simp only [handleEvent]
              rw [if_neg hrd, if_pos hc]
            rw [hred]
            simp only [List.map_nil, List.append_nil]
            exact h
          · have hred : handleEvent T s (SessionEvent.message c) now
                = ({ s with
                      fullContent := s.fullContent ++ c, receivedDelta := true,
                      segText := s.segText ++ c, segLastUpdate := now },
                   [⟨UpdateType.text, s.segText ++ c, some s.segId⟩]) := by
              simp only [handleEvent]
              rw [if_neg hrd, if_neg hc]
            rw [hred]
            simp only [List.map_cons, List.map_nil]
            have h' : ThrInvP T s.segId s.segLastUpdate false out := by
              rw [← hrdf]; exact h
            exact thrInvP_emit_first T s.segId s.segLastUpdate out now (s.segText ++ c) h'
      | toolStart toolName =>
        by_cases hseg : s.segText = ""
        · have hred : handleEvent T s (SessionEvent.toolStart toolName) now
              = ({ s with sess := { s.sess with currentTool := some toolName } },
                 [⟨UpdateType.tool, "⚙️ " ++ toolName, none⟩]) := by
            simp only [handleEvent]
            rw [if_neg (fun hcon => hcon hseg)]
          rw [hred]
          simp only [List.map_cons, List.map_nil]
          refine thrInvP_append_nontext T s.segId s.segLastUpdate s.receivedDelta out _
            h ?_ ?_ ?_
          · intro u hu
            simp only [List.mem_singleton] at hu
            subst hu
            simp
          · intro u hu k hk
            simp only [List.mem_singleton] at hu
            subst hu
            simp at hk
          · exact List.pairwise_singleton _ _
        · have hred : handleEvent T s (SessionEvent.toolStart toolName) now
              = ({ s with
                    segId := s.segId + 1, segText := "", segLastUpdate := 0,
                    sess := { s.sess with currentTool := some toolName } },
                 [⟨UpdateType.segmentEnd, s.segText, some s.segId⟩,
                  ⟨UpdateType.tool, "⚙️ " ++ toolName, none⟩]) := by
            simp only [handleEvent]
            rw [if_pos hseg]
          rw [hred]
          simp only [List.map_cons, List.map_nil]
          refine thrInvP_segId_succ T s.segId s.segLastUpdate 0 s.receivedDelta _
            (thrInvP_append_nontext T s.segId s.segLastUpdate s.receivedDelta out _
              h ?_ ?_ ?_)
          · intro u hu
            rcases List.mem_cons.mp hu with heq | hmem
            · subst heq; simp
            · simp only [List.mem_singleton] at hmem
              subst hmem; simp
          · intro u hu k hk
            rcases List.mem_cons.mp hu with heq | hmem
            · subst heq
              simp only [Option.some.injEq] at hk
              omega
            · simp only [List.mem_singleton] at hmem
              subst hmem
              simp at hk
          · refine List.Pairwise.cons ?_ (List.pairwise_singleton _ _)
            intro b hb
            simp only [List.mem_singleton] at hb
            subst hb
            intro hat _ _
            simp at hat
      | toolComplete =>
        have hred : handleEvent T s SessionEvent.toolComplete now
            = ({ s with sess := { s.sess with
                  lastTool := s.sess.currentTool, currentTool := none } }, []) := rfl
        rw [hred]
        simp only [List.map_nil, List.append_nil]
        exact h
      | usage a b cr cw =>
        have hred : handleEvent T s (SessionEvent.usage a b cr cw) now
            = ({ s with sess := { s.sess with
                  lastUsage := some
                    { inputTokens := a.getD 0, outputTokens := b.getD 0,
                      cacheReadInputTokens := cr.getD 0,
                      cacheCreationInputTokens := cw.getD 0 } } }, []) := rfl
        rw [hred]
        simp only [List.map_nil, List.append_nil]
        exact h
      | titleChanged title =>
        have hred : handleEvent T s (SessionEvent.titleChanged title) now
            = ({ s with sess := { s.sess with conversationTitle := some title } }, []) := rfl
        rw [hred]
        simp only [List.map_nil, List.append_nil]
        exact h
      | reasoningDelta d =>
        have hred : handleEvent T s (SessionEvent.reasoningDelta d) now
            = (s, [⟨UpdateType.thinking, d, none⟩]) := rfl
        rw [hred]
        simp only [List.map_cons, List.map_nil]
        refine thrInvP_append_nontext T s.segId s.segLastUpdate s.receivedDelta out _
          h ?_ ?_ ?_
        · intro u hu
          simp only [List.mem_singleton] at hu
          subst hu
          simp
        · intro u hu k hk
          simp only [List.mem_singleton] at hu
          subst hu
          simp at hk
        · exact List.pairwise_singleton _ _
    | idle now =>
      simp only [step]
      rw [if_neg hset]
      by_cases hseg : s.segText = ""
      · rw [if_neg (show ¬(s.segText ≠ "") from fun hcon => hcon hseg)]
        simp only [List.nil_append]
        refine thrInvP_append_nontext T s.segId s.segLastUpdate s.receivedDelta out _
          h ?_ ?_ ?_
        · intro u hu
          simp only [List.mem_singleton] at hu
          subst hu
          simp
        · intro u hu k hk
          simp only [List.mem_singleton] at hu
          subst hu
          simp at hk
        · exact List.pairwise_singleton _ _
      · rw [if_pos hseg]
        simp only [List.singleton_append]
        refine thrInvP_append_nontext T s.segId s.segLastUpdate s.receivedDelta out _
          h ?_ ?_ ?_
        · intro u hu
          rcases List.mem_cons.mp hu with heq | hmem
          · subst heq; simp
          · simp only [List.mem_singleton] at hmem
            subst hmem; simp
        · intro u hu k hk
          rcases List.mem_cons.mp hu with heq | hmem
          · subst heq
            simp only [Option.some.injEq] at hk
            omega
          · simp only [List.mem_singleton] at hmem
            subst hmem
            simp at hk
        · refine List.Pairwise.cons ?_ (List.pairwise_singleton _ _)
          intro b hb
          simp only [List.mem_singleton] at hb
          subst hb
          intro hat _ _
          simp at hat
    | error msg now =>
      simp only [step]
      rw [if_neg hset]
      simp only [List.append_nil]
      exact h
    | timeout now =>
      simp only [step]
      rw [if_neg hset]
      simp only [List.append_nil]
      exact h
    | sendFail msg now =>
      simp only [step]
      rw [if_neg hset]
      simp only [List.append_nil]
      exact h

theorem thrInv_run (T : Int) (hT : 0 ≤ T) :
    ∀ (occs : List Occ) (s : SendState) (out : List TimedUpdate),
      ThrInv T s out → ThrInv T (run T s occs).1 (out ++ (run T s occs).2) := by
  intro occs
  induction occs with
  | nil => intro s out h; simpa [run] using h
  | cons o os ih =>
    intro s out h
    have h1 := thrInv_step T hT s out o h
    have h2 := ih (step T s o).1 (out ++ (step T s o).2) h1
    rw [run]
    simpa [List.append_assoc] using h2

/-- Claim C4: a `text` update for the current segment is forwarded by the
delta path only when at least the throttle interval `T` has elapsed since
the segment's last emission and the buffered segment exceeds the 20
character minimum; consequently, over a whole send, any two `text`
emissions bearing the same segment id are at least `T` apart
(segment-finalizing `segment_end` / `done` emissions are not `text` updates
and fire regardless of elapsed time). -/
theorem text_throttling (T : Int) (hT : 0 ≤ T) (s : SendState) (d : String)
    (now : Int) (sess0 : SessionState) (t0 : Int) (occs : List Occ) :
    (∀ u ∈ (handleEvent T s (SessionEvent.messageDelta d) now).2,
      T ≤ now - s.segLastUpdate ∧ 20 < (s.segText ++ d).length) ∧
    List.Pairwise (Rthr T) (run T (startSend sess0 t0) occs).2 := by
  constructor
  · intro u hu
    by_cases hg : T < now - s.segLastUpdate ∧ 20 < (s.segText ++ d).length
    · refine ⟨by omega, hg.2⟩
    · simp only [handleEvent] at hu
      rw [if_neg hg] at hu
      simp at hu
  · have h0 : ThrInv T (startSend sess0 t0) [] := by
      refine ⟨?_, ?_, ?_, List.Pairwise.nil⟩
      · intro u hu; simp at hu
      · intro u hu; simp at hu
      · intro _ u hu; simp at hu
    have hres := thrInv_run T hT occs (startSend sess0 t0) [] h0
    obtain ⟨-, -, -, h4⟩ := hres
    simpa using h4

/-- Witness for claim C4: a concrete send with two deltas 600ms apart and a
final idle, under a 500ms throttle. -/
theorem text_throttling_witness :
    (0 : Int) ≤ 500 ∧
    List.Pairwise (Rthr 500)
      (run 500 (startSend initialSession 0)
        [Occ.ev (SessionEvent.messageDelta "aaaaaaaaaaaaaaaaaaaaaaaaa") 100,
         Occ.ev (SessionEvent.messageDelta "bbbbbbbbbbbbbbbbbbbbbbbbb") 700,
         Occ.idle 800]).2 :=
  ⟨by decide,
   (text_throttling 500 (by decide) sendMid "x" 50 initialSession 0
     [Occ.ev (SessionEvent.messageDelta "aaaaaaaaaaaaaaaaaaaaaaaaa") 100,
      Occ.ev (SessionEvent.messageDelta "bbbbbbbbbbbbbbbbbbbbbbbbb") 700,
      Occ.idle 800]).2⟩

end CTBot
